/-
  Spec2Proof.lean — a verification development for the Voyage_Optimization
  pipeline (ship speed optimization).

  Shallow embedding of the pipeline's core modules:
    * pipeline/shared/physics.py     — speed-correction model, FCR, inverse SWS
    * pipeline/shared/simulation.py  — per-leg voyage simulation loop
    * pipeline/shared/metrics.py     — result metrics
    * pipeline/dynamic_det/optimize.py — forward Bellman DP
    * pipeline/dynamic_rh/optimize.py  — rolling-horizon driver

  Real-valued physics (sqrt / sin / cos / rpow) is embedded over ℝ.
  Control-flow-heavy modules (simulation loop, DP, rolling horizon,
  metrics) are embedded over an arbitrary linear ordered field so that
  witnesses can be evaluated over ℚ; the physics quantities they consume
  are passed as function parameters, exactly at the call boundaries the
  Python modules use (they import the physics functions).

  Python float literals (0.000706, 0.1, 0.01, ...) are modelled by the
  exact decimal rationals they denote.
-/
import Mathlib

set_option maxHeartbeats 1000000

namespace VoyageOpt

/-- Loading condition flag ('normal' / 'ballast' strings in the source). -/
inductive Loading where
  | normal : Loading
  | ballast : Loading
deriving DecidableEq

/-- Ship characteristics dict used by `calculate_speed_over_ground`
(physics.py keys: length, beam, draft, displacement, block_coefficient,
wetted_surface, rated_power, max_speed, min_speed). -/
structure ShipParams where
  length : ℝ
  beam : ℝ
  draft : ℝ
  displacement : ℝ
  block_coefficient : ℝ
  wetted_surface : ℝ
  rated_power : ℝ
  max_speed : ℝ
  min_speed : ℝ

/-- The default ship parameter dict built inside
`calculate_speed_over_ground` when `ship_parameters is None`. -/
def defaultShipParams : ShipParams :=
  { length := 200, beam := 32, draft := 12, displacement := 50000,
    block_coefficient := 0.75, wetted_surface := 8000, rated_power := 10000,
    max_speed := 14, min_speed := 8 }

/-- physics.py constant GRAVITY. -/
def GRAVITY : ℝ := 9.81

/-- physics.py constant KNOTS_TO_MS. -/
def KNOTS_TO_MS : ℝ := 0.5144

/-- physics.py constant CO2_FACTOR. -/
def CO2_FACTOR : ℝ := 3.17

/-- Paper Eq (9): weather direction angle θ = |wrap(φ − α)| normalized to
[0, π] (physics.py `calculate_weather_direction_angle`). -/
noncomputable def calculate_weather_direction_angle (wind_direction ship_heading : ℝ) : ℝ :=
  let theta := wind_direction - ship_heading
  |if Real.pi < theta then theta - 2 * Real.pi
   else if theta < -Real.pi then theta + 2 * Real.pi
   else theta|

/-- Froude number Fn = V / √(g·L) (physics.py `calculate_froude_number`). -/
noncomputable def calculate_froude_number (ship_speed_ms ship_length : ℝ) : ℝ :=
  ship_speed_ms / Real.sqrt (GRAVITY * ship_length)

/-- Paper Table 2: direction reduction coefficient Cβ
(physics.py `calculate_direction_reduction_coefficient`). -/
noncomputable def calculate_direction_reduction_coefficient (theta_deg : ℝ) (beaufort_scale : ℤ) : ℝ :=
  let BN : ℝ := (beaufort_scale : ℝ)
  let c_beta :=
    if 0 ≤ theta_deg ∧ theta_deg ≤ 30 then 2.0
    else if 30 < theta_deg ∧ theta_deg ≤ 60 then 1.7 - 0.03 * (BN - 4) ^ 2
    else if 60 < theta_deg ∧ theta_deg ≤ 150 then 0.9 - 0.06 * (BN - 6) ^ 2
    else 0.4 - 0.03 * (BN - 8) ^ 2
  max c_beta 0.1

/-- Paper Table 3: speed reduction coefficient CU
(physics.py `calculate_speed_reduction_coefficient`). -/
noncomputable def calculate_speed_reduction_coefficient (froude_number block_coefficient : ℝ)
    (loading_condition : Loading) : ℝ :=
  let Fn := froude_number
  let cb := block_coefficient
  let c_u :=
    if cb ≤ 0.55 then 1.7 - 1.4 * Fn - 7.4 * Fn ^ 2
    else if cb ≤ 0.60 then 2.2 - 2.5 * Fn - 9.7 * Fn ^ 2
    else if cb ≤ 0.65 then 2.6 - 3.7 * Fn - 11.6 * Fn ^ 2
    else if cb ≤ 0.70 then 3.1 - 5.3 * Fn - 12.4 * Fn ^ 2
    else if cb ≤ 0.75 then
      (if loading_condition = Loading.normal then 2.4 - 10.6 * Fn - 9.5 * Fn ^ 2
       else 2.6 - 12.5 * Fn - 13.5 * Fn ^ 2)
    else if cb ≤ 0.80 then
      (if loading_condition = Loading.normal then 2.6 - 13.1 * Fn - 15.1 * Fn ^ 2
       else 3.0 - 16.3 * Fn - 21.6 * Fn ^ 2)
    else
      (if loading_condition = Loading.normal then 3.1 - 18.7 * Fn + 28.0 * Fn ^ 2
       else 3.4 - 20.9 * Fn + 31.8 * Fn ^ 2)
  max c_u 0.1

/-- Paper Table 4: ship form coefficient CForm
(physics.py `calculate_ship_form_coefficient`); `BN ** 6.5` and
`∇ ** (2/3)` are real powers. -/
noncomputable def calculate_ship_form_coefficient (beaufort_scale : ℤ)
    (displacement_volume : ℝ) (loading_condition : Loading) : ℝ :=
  let BN : ℝ := (beaufort_scale : ℝ)
  let displacement_term := displacement_volume ^ ((2 : ℝ) / 3)
  if loading_condition = Loading.normal then
    0.5 * BN + BN ^ (6.5 : ℝ) / (22 * displacement_term)
  else
    0.7 * BN + BN ^ (6.5 : ℝ) / (22 * displacement_term)

/-- Paper Eq (7): speed loss percentage, clamped to [0, 50]
(physics.py `calculate_speed_loss_percentage`). -/
noncomputable def calculate_speed_loss_percentage (c_beta c_u c_form : ℝ) : ℝ :=
  min (max (c_beta * c_u * c_form) 0) 50

/-- Paper Eq (8): weather corrected speed, floored at 1.0 knot
(physics.py `calculate_weather_corrected_speed`). -/
noncomputable def calculate_weather_corrected_speed (ship_speed speed_loss_percent : ℝ) : ℝ :=
  max (ship_speed * (1 - speed_loss_percent / 100)) 1

/-- Paper Eqs (14-16): SOG via vector synthesis
(physics.py `calculate_sog_vector_synthesis`). -/
noncomputable def calculate_sog_vector_synthesis (weather_corrected_speed ship_heading
    ocean_current current_direction : ℝ) : ℝ :=
  Real.sqrt ((weather_corrected_speed * Real.sin ship_heading
                + ocean_current * Real.sin current_direction) ^ 2
             + (weather_corrected_speed * Real.cos ship_heading
                + ocean_current * Real.cos current_direction) ^ 2)

/-- Steps 1-8 of physics.py `calculate_speed_over_ground`: the SOG value
held in the local variable `sog` just before the `beaufort_scale >= 5`
post-processing branch.  `wave_height` is accepted but unused, exactly as
in the source. -/
noncomputable def sogBeforeBeaufortFactor (ship_speed ocean_current current_direction
    ship_heading wind_direction : ℝ) (beaufort_scale : ℤ) (wave_height : ℝ)
    (ship_parameters : ShipParams) : ℝ :=
  let _ := wave_height
  let weather_angle_rad := calculate_weather_direction_angle wind_direction ship_heading
  let weather_angle_deg := weather_angle_rad * (180 / Real.pi)
  let ship_speed_ms := ship_speed * KNOTS_TO_MS
  let froude_number := calculate_froude_number ship_speed_ms ship_parameters.length
  let c_beta := calculate_direction_reduction_coefficient weather_angle_deg beaufort_scale
  let c_u := calculate_speed_reduction_coefficient froude_number
      ship_parameters.block_coefficient Loading.normal
  let displacement_volume := ship_parameters.displacement * 1000 / 1025
  let c_form := calculate_ship_form_coefficient beaufort_scale displacement_volume Loading.normal
  let speed_loss_percent := calculate_speed_loss_percentage c_beta c_u c_form
  let weather_corrected_speed := calculate_weather_corrected_speed ship_speed speed_loss_percent
  calculate_sog_vector_synthesis weather_corrected_speed ship_heading
    ocean_current current_direction

/-- physics.py `calculate_speed_over_ground`: full composite, including
the BN ≥ 5 post-processing factor 0.965. -/
noncomputable def calculate_speed_over_ground (ship_speed ocean_current current_direction
    ship_heading wind_direction : ℝ) (beaufort_scale : ℤ) (wave_height : ℝ)
    (ship_parameters : ShipParams) : ℝ :=
  let sog := sogBeforeBeaufortFactor ship_speed ocean_current current_direction
      ship_heading wind_direction beaufort_scale wave_height ship_parameters
  if 5 ≤ beaufort_scale then sog * 0.965 else sog

/-- physics.py `calculate_fuel_consumption_rate`:
FCR(Vsw) = max(0.000706·Vsw³, 0.1).  Stated over any linear ordered field
(the simulation and DP embeddings reuse it over ℚ in witnesses). -/
def calculate_fuel_consumption_rate {α : Type} [LinearOrderedField α] (ship_speed : α) : α :=
  max (706 / 1000000 * ship_speed ^ 3) (1 / 10)

/-- Weather dict with the standard field names consumed by
`calculate_sws_from_sog` (physics.py) — all six keys present. -/
structure Weather where
  wind_speed_10m_kmh : ℝ
  wind_direction_10m_deg : ℝ
  beaufort_number : ℝ
  wave_height_m : ℝ
  ocean_current_velocity_kmh : ℝ
  ocean_current_direction_deg : ℝ

/-- Python `math.radians`. -/
noncomputable def radians (deg : ℝ) : ℝ := deg * (Real.pi / 180)

/-- Python `int(x)` on a float: truncation toward zero. -/
noncomputable def intTrunc (x : ℝ) : ℤ := if 0 ≤ x then ⌊x⌋ else ⌈x⌉

/-- The closure `_sog_at` built inside physics.py `calculate_sws_from_sog`
from the weather dict, heading and ship parameters. -/
noncomputable def swsSogAt (weather : Weather) (ship_heading_deg : ℝ)
    (ship_parameters : ShipParams) (sws : ℝ) : ℝ :=
  calculate_speed_over_ground sws
    (weather.ocean_current_velocity_kmh / 1.852)
    (radians weather.ocean_current_direction_deg)
    (radians ship_heading_deg)
    (radians weather.wind_direction_10m_deg)
    (intTrunc weather.beaufort_number)
    weather.wave_height_m
    ship_parameters

/-- The binary-search loop of physics.py `calculate_sws_from_sog`
(lines 467-485).  State: remaining iterations, current bracket
`[lo, hi]`, best-so-far `(best_sws, best_error)` (`none` models the
initial `best_sws = None / best_error = inf`, under which the first
comparison `error < best_error` always succeeds).  The two `break`s
(convergence, bracket collapse) return the best-so-far. -/
noncomputable def searchGo (f : ℝ → ℝ) (target tolerance : ℝ) :
    ℕ → ℝ → ℝ → Option (ℝ × ℝ) → Option (ℝ × ℝ)
  | 0, _, _, best => best
  | n + 1, lo, hi, best =>
    let test_sws := (lo + hi) / 2
    let calculated_sog := f test_sws
    let error := |calculated_sog - target|
    let best' :=
      match best with
      | none => some (test_sws, error)
      | some (bs, be) => if error < be then some (test_sws, error) else some (bs, be)
    if error < tolerance then best'
    else
      let lo' := if calculated_sog < target then test_sws else lo
      let hi' := if calculated_sog < target then hi else test_sws
      if |hi' - lo'| < 0.0001 then best'
      else searchGo f target tolerance n lo' hi' best'

/-- Lower end of the initial bracket in `calculate_sws_from_sog`:
[5, 20], widened to [1, 5] when the target is below SOG(5) and to
[20, 30] when it is above SOG(20). -/
noncomputable def swsSearchLo (f : ℝ → ℝ) (target : ℝ) : ℝ :=
  if target < f 5 then 1 else if f 20 < target then 20 else 5

/-- Upper end of the initial bracket in `calculate_sws_from_sog`. -/
noncomputable def swsSearchHi (f : ℝ → ℝ) (target : ℝ) : ℝ :=
  if target < f 5 then 5 else if f 20 < target then 30 else 20

/-- physics.py `calculate_sws_from_sog` with its default
`tolerance = 0.001` and `max_iterations = 50` (the pipeline always calls
it with the defaults).  Returns `best_sws` when the best residual is
strictly below 0.1 knots, otherwise the target SOG as fallback. -/
noncomputable def calculate_sws_from_sog (target_sog : ℝ) (weather : Weather)
    (ship_heading_deg : ℝ) (ship_parameters : ShipParams) : ℝ :=
  let f := swsSogAt weather ship_heading_deg ship_parameters
  match searchGo f target_sog 0.001 50 (swsSearchLo f target_sog) (swsSearchHi f target_sog) none with
  | none => target_sog
  | some (best_sws, best_error) => if best_error < 0.1 then best_sws else target_sog

section Simulation

variable {α : Type} [LinearOrderedField α]

/-- One entry of a speed schedule handed to simulation.py
`simulate_voyage`: per-leg schedules carry a `node_id` key, per-segment
(LP) schedules do not.  `sog_knots` is the target SOG. -/
structure SchedEntry (α : Type) where
  node_id : Option ℤ
  segment : ℤ
  sog_knots : α

/-- One leg of the merged waypoint table: consecutive pair data needed by
the simulation loop.  `dist` is
`node_b.distance_from_start_nm - node_a.distance_from_start_nm`.
Weather and heading are consumed through the physics parameters below. -/
structure SimLeg (α : Type) where
  node_id : ℤ
  segment : ℤ
  dist : α

/-- Schedule lookup of simulation.py lines 76-105: per-leg dicts are keyed
by `node_id`, per-segment dicts by `segment`; dict comprehension lets a
later duplicate key overwrite an earlier one, hence the `reverse`. -/
def scheduleLookup (speed_schedule : List (SchedEntry α)) (leg : SimLeg α) : Option α :=
  match speed_schedule with
  | [] => none
  | e :: _ =>
    if e.node_id.isSome then
      (speed_schedule.reverse.find? (fun s => decide (s.node_id = some leg.node_id))).map
        (fun s => s.sog_knots)
    else
      (speed_schedule.reverse.find? (fun s => decide (s.segment = leg.segment))).map
        (fun s => s.sog_knots)

/-- The non-cumulative columns of one time-series row emitted by
`simulate_voyage` (lat/lon and the raw weather echo columns are omitted:
they are copied verbatim from the input tables). -/
structure SimRowCore (α : Type) where
  node_id : ℤ
  segment : ℤ
  planned_sog : α
  actual_sog : α
  planned_sws : α
  actual_sws : α
  distance_nm : α
  time_h : α
  fuel_mt : α

/-- A full time-series row: core columns plus the running cumulative
totals at the point the row is emitted. -/
structure SimRow (α : Type) extends SimRowCore α where
  cum_distance_nm : α
  cum_time_h : α
  cum_fuel_mt : α

/-- Running state of the `simulate_voyage` leg loop. -/
structure SimState (α : Type) where
  cumDist : α
  cumTime : α
  cumFuel : α
  swsViolations : ℕ
  rows : List (SimRow α)

/-- Initial state of the loop (`cum_* = 0.0`, `sws_violations = 0`,
`rows = []`). -/
def simInit : SimState α := ⟨0, 0, 0, 0, []⟩

/-- The target SOG of a leg (meaningful when the schedule lookup hits). -/
def legTargetOf (speed_schedule : List (SchedEntry α)) (leg : SimLeg α) : α :=
  (scheduleLookup speed_schedule leg).getD 0

/-- `required_sws` of a leg: the inverse-SWS search result, abstracted as
a leg-indexed function (simulation.py calls `calculate_sws_from_sog` with
the leg's target SOG, actual weather and heading). -/
def legRequiredOf (invSws : SimLeg α → α → α) (speed_schedule : List (SchedEntry α))
    (leg : SimLeg α) : α :=
  invSws leg (legTargetOf speed_schedule leg)

/-- `clamped_sws = max(min_speed, min(max_speed, required_sws))`. -/
def legClampedOf (minS maxS : α) (invSws : SimLeg α → α → α)
    (speed_schedule : List (SchedEntry α)) (leg : SimLeg α) : α :=
  max minS (min maxS (legRequiredOf invSws speed_schedule leg))

/-- The violation test of simulation.py lines 134 and 145:
`abs(clamped_sws - required_sws) > 0.01`. -/
def legViolB (minS maxS : α) (invSws : SimLeg α → α → α)
    (speed_schedule : List (SchedEntry α)) (leg : SimLeg α) : Bool :=
  decide ((1 : α) / 100 <
    |legClampedOf minS maxS invSws speed_schedule leg
      - legRequiredOf invSws speed_schedule leg|)

/-- Whether the loop body processes a leg: its schedule lookup hits and
its distance is positive (lines 103-112 skip otherwise). -/
def legProcessed (speed_schedule : List (SchedEntry α)) (leg : SimLeg α) : Bool :=
  (scheduleLookup speed_schedule leg).isSome && decide ((0 : α) < leg.dist)

/-- The achieved SOG of a processed leg: recomputed by the forward physics
(abstracted as `fwdSog`, standing for `calculate_speed_over_ground` at the
leg's weather) and floored at 0.1 when the SWS was clamped by more than
0.01 knots, otherwise the target SOG itself. -/
def legActualSogOf (minS maxS : α) (invSws fwdSog : SimLeg α → α → α)
    (speed_schedule : List (SchedEntry α)) (leg : SimLeg α) : α :=
  if legViolB minS maxS invSws speed_schedule leg then
    max (fwdSog leg (legClampedOf minS maxS invSws speed_schedule leg)) (1 / 10)
  else legTargetOf speed_schedule leg

/-- The core columns of the row a processed leg emits. -/
def legCore (minS maxS : α) (invSws fwdSog : SimLeg α → α → α)
    (speed_schedule : List (SchedEntry α)) (leg : SimLeg α) : SimRowCore α :=
  let target := legTargetOf speed_schedule leg
  let required := legRequiredOf invSws speed_schedule leg
  let clamped := legClampedOf minS maxS invSws speed_schedule leg
  let actual_sog := legActualSogOf minS maxS invSws fwdSog speed_schedule leg
  let leg_time := leg.dist / actual_sog
  { node_id := leg.node_id, segment := leg.segment,
    planned_sog := target, actual_sog := actual_sog,
    planned_sws := required, actual_sws := clamped,
    distance_nm := leg.dist, time_h := leg_time,
    fuel_mt := calculate_fuel_consumption_rate clamped * leg_time }

/-- The body of the `simulate_voyage` loop over consecutive waypoint
pairs (simulation.py lines 97-188), with the two physics calls abstracted
as `invSws` (inverse SWS from target SOG) and `fwdSog` (forward SOG from
clamped SWS). -/
def legStep (minS maxS : α) (invSws fwdSog : SimLeg α → α → α)
    (speed_schedule : List (SchedEntry α)) (st : SimState α) (leg : SimLeg α) : SimState α :=
  match scheduleLookup speed_schedule leg with
  | none => st
  | some target_sog =>
    if leg.dist ≤ 0 then st
    else
      let required_sws := invSws leg target_sog
      let clamped_sws := max minS (min maxS required_sws)
      let violations :=
        if (1 : α) / 100 < |clamped_sws - required_sws| then st.swsViolations + 1
        else st.swsViolations
      let actual_sog :=
        if (1 : α) / 100 < |clamped_sws - required_sws| then
          max (fwdSog leg clamped_sws) (1 / 10)
        else target_sog
      let fcr := calculate_fuel_consumption_rate clamped_sws
      let leg_time := leg.dist / actual_sog
      let leg_fuel := fcr * leg_time
      let cum_distance := st.cumDist + leg.dist
      let cum_time := st.cumTime + leg_time
      let cum_fuel := st.cumFuel + leg_fuel
      { cumDist := cum_distance, cumTime := cum_time, cumFuel := cum_fuel,
        swsViolations := violations,
        rows := st.rows ++
          [{ node_id := leg.node_id, segment := leg.segment,
             planned_sog := target_sog, actual_sog := actual_sog,
             planned_sws := required_sws, actual_sws := clamped_sws,
             distance_nm := leg.dist, time_h := leg_time, fuel_mt := leg_fuel,
             cum_distance_nm := cum_distance, cum_time_h := cum_time,
             cum_fuel_mt := cum_fuel }] }

/-- The leg loop of simulation.py `simulate_voyage`: fold of `legStep`
over the consecutive waypoint pairs, from the zeroed state.  The final
state carries the cumulative totals, the violation counter and the
time-series rows that the function packages into its result dict. -/
def simulate_voyage (minS maxS : α) (invSws fwdSog : SimLeg α → α → α)
    (speed_schedule : List (SchedEntry α)) (legs : List (SimLeg α)) : SimState α :=
  legs.foldl (legStep minS maxS invSws fwdSog speed_schedule) simInit

end Simulation

section DynamicDP

variable {α : Type} [LinearOrderedField α] [FloorRing α]

/-- One cell of the sparse DP tables of dynamic_det/optimize.py:
`cost[node][t]` together with the back-pointer `parent[node][t] = (t, k)`
(the two Python dicts always carry the same keys and are updated
together; the initial cell `cost[0][0] = 0` has no parent entry). -/
structure DPCell (α : Type) where
  cost : α
  parent : Option (ℤ × ℕ)

/-- Sparse-map read: Python `t in d` / `d[t]` on an insertion-ordered
dict, modelled as an association list. -/
def assocGet (layer : List (ℤ × DPCell α)) (t : ℤ) : Option (DPCell α) :=
  (layer.find? (fun e => decide (e.1 = t))).map (fun e => e.2)

/-- Sparse-map overwrite of an existing key (keeps its position, as a
Python dict does). -/
def assocSet : List (ℤ × DPCell α) → ℤ → DPCell α → List (ℤ × DPCell α)
  | [], t, c => [(t, c)]
  | e :: rest, t, c => if e.1 = t then (t, c) :: rest else e :: assocSet rest t c

/-- One candidate edge of the DP (optimize.py lines 124-148): clamp the
raw SOG to 0.1, `travel_time = dist / sog`,
`leg_fuel = fcr[k] * travel_time`,
`arrival_time = t * dt + travel_time`,
`t_next = ceil(arrival_time / dt)`; edges with
`t_next >= max_time_slots` are rejected (`continue`). -/
def dpEdge (dt : α) (max_time_slots : ℤ) (dist fcr_k raw_sog : α) (t : ℤ) : Option (ℤ × α) :=
  let sog := max raw_sog (1 / 10)
  let travel_time := dist / sog
  let leg_fuel := fcr_k * travel_time
  let arrival_time := (t : α) * dt + travel_time
  let t_next := ⌈arrival_time / dt⌉
  if max_time_slots ≤ t_next then none else some (t_next, leg_fuel)

/-- The relaxation of optimize.py lines 151-153: write cost and
back-pointer into the next node's map when the target slot is new or the
new cost improves on the stored one. -/
def dpUpdate (next : List (ℤ × DPCell α)) (t_next : ℤ) (new_cost : α) (t : ℤ) (k : ℕ) :
    List (ℤ × DPCell α) :=
  match assocGet next t_next with
  | none => next ++ [(t_next, ⟨new_cost, some (t, k)⟩)]
  | some cell =>
    if new_cost < cell.cost then assocSet next t_next ⟨new_cost, some (t, k)⟩ else next

/-- One node layer of the forward DP (the loop body for a fixed leg `i`):
relax every speed-grid edge from every reachable `(i, t)` into node
`i + 1`.  `sogRaw t k` stands for the `calculate_speed_over_ground` value
at this leg under the weather looked up for slot `t` (optimize.py lines
87-134); the `fuel_so_far == INF` guard is omitted because no infinite
cost is ever stored.  The next layer starts empty, as `cost[i+1] = { }`
does. -/
def dpLayerStep (dt : α) (max_time_slots : ℤ) (dist : α) (sogRaw : ℤ → ℕ → α)
    (fcr : List α) (cur : List (ℤ × DPCell α)) : List (ℤ × DPCell α) :=
  cur.foldl (fun next e =>
    (List.range fcr.length).foldl (fun next2 k =>
      match dpEdge dt max_time_slots dist (fcr.getD k 0) (sogRaw e.1 k) e.1 with
      | none => next2
      | some p => dpUpdate next2 p.1 (e.2.cost + p.2) e.1 k) next) []

/-- The DP cost/parent table for node `i`, built by iterating
`dpLayerStep` from `cost[0][0] = 0.0`.  `sogRaw i t k` is the physics SOG
for leg `i`, slot `t`, speed index `k`. -/
def dpLayers (dt : α) (max_time_slots : ℤ) (distances : List α)
    (sogRaw : ℕ → ℤ → ℕ → α) (fcr : List α) : ℕ → List (ℤ × DPCell α)
  | 0 => [(0, ⟨0, none⟩)]
  | i + 1 => dpLayerStep dt max_time_slots (distances.getD i 0) (sogRaw i) fcr
      (dpLayers dt max_time_slots distances sogRaw fcr i)

/-- Destination scan of optimize.py lines 158-165: walk the destination
map's entries in order keeping the first strict improvement among cells
with `t * dt <= ETA`. -/
def selectBest (dt ETA : α) : List (ℤ × DPCell α) → Option (ℤ × α) → Option (ℤ × α)
  | [], best => best
  | e :: rest, best =>
    let improves :=
      match best with
      | none => decide ((e.1 : α) * dt ≤ ETA)
      | some p => decide ((e.1 : α) * dt ≤ ETA) && decide (e.2.cost < p.2)
    if improves then selectBest dt ETA rest (some (e.1, e.2.cost))
    else selectBest dt ETA rest best

/-- Backtracking of optimize.py lines 184-245: walk the back-pointers
from the destination cell down to node 0, collecting per-leg speed
choices `(leg index, speed index)` in route order (the Python loop
appends in reverse and then reverses).  The per-entry record fields
(`node_id`, `sws_knots = speeds[k]` and the recomputed SOG/time/fuel) are
functions of the collected pair and the leg context. -/
def backtrack (layers : ℕ → List (ℤ × DPCell α)) : ℕ → ℤ → List (ℕ × ℕ)
  | 0, _ => []
  | i + 1, t =>
    match assocGet (layers (i + 1)) t with
    | none => []
    | some cell =>
      match cell.parent with
      | none => []
      | some p => backtrack layers i p.1 ++ [(i, p.2)]

/-- Result shape of dynamic_det/optimize.py: on Infeasible the returned
dict has no `speed_schedule` key; otherwise it carries the backtracked
schedule. -/
inductive DPOutcome (α : Type) where
  | infeasible : DPOutcome α
  | feasible (best_t : ℤ) (best_fuel : α) (schedule : List (ℕ × ℕ)) : DPOutcome α

/-- dynamic_det/optimize.py `optimize`: run the forward DP over all legs,
pick the best destination slot within the ETA cap, and either report
Infeasible (no schedule) or backtrack a schedule from the chosen cell. -/
def dp_optimize (dt ETA : α) (max_time_slots : ℤ) (num_legs : ℕ) (distances : List α)
    (sogRaw : ℕ → ℤ → ℕ → α) (fcr : List α) : DPOutcome α :=
  let layers := dpLayers dt max_time_slots distances sogRaw fcr
  match selectBest dt ETA (layers num_legs) none with
  | none => DPOutcome.infeasible
  | some p => DPOutcome.feasible p.1 p.2 (backtrack layers num_legs p.1)

end DynamicDP

section RollingHorizon

variable {α : Type} [LinearOrderedField α]

/-- One per-leg schedule entry as produced by the sub-DP and consumed by
dynamic_rh/optimize.py (`leg`, `node_id`, `segment`, `sws_knots`,
`sog_knots`, `distance_nm`, `time_h`, `fuel_kg`). -/
structure RHLeg (α : Type) where
  leg : ℕ
  node_id : ℤ
  segment : ℤ
  sws_knots : α
  sog_knots : α
  distance_nm : α
  time_h : α
  fuel_kg : α

/-- Re-mapping of a committed leg into the global frame
(`remapped["leg"] = leg["leg"] + current_node_idx`). -/
def rhRemap (current_node_idx : ℕ) (l : RHLeg α) : RHLeg α :=
  { l with leg := l.leg + current_node_idx }

/-- The commit loop of dynamic_rh/optimize.py lines 129-138: walk the
sub-schedule in order accumulating `sub_elapsed`; on a non-terminal epoch
stop before the first leg whose start time has reached the time budget;
remap each committed leg's index into the global frame. -/
def commitGo (is_last : Bool) (time_budget : α) (current_node_idx : ℕ) :
    List (RHLeg α) → α → List (RHLeg α)
  | [], _ => []
  | l :: ls, sub_elapsed =>
    if ¬is_last ∧ time_budget ≤ sub_elapsed then []
    else rhRemap current_node_idx l :: commitGo is_last time_budget current_node_idx ls
        (sub_elapsed + l.time_h)

/-- Start time (within the epoch's plan) of leg `j` of a sub-schedule:
the sum of the leg times before it. -/
def rhStartTime (sched : List (RHLeg α)) (j : ℕ) : α :=
  ((sched.take j).map (fun l => l.time_h)).sum

/-- State of the rolling-horizon driver loop: `current_node_idx`,
`elapsed_time`, `elapsed_fuel`, the stitched `committed_legs`, and a flag
recording that one of the loop's `break`s has fired (destination reached,
no remaining ETA, or sub-DP infeasible). -/
structure RHState (α : Type) where
  nodeIdx : ℕ
  elapsedT : α
  elapsedF : α
  committed : List (RHLeg α)
  halted : Bool

/-- Initial driver state. -/
def rhInit : RHState α := ⟨0, 0, 0, [], false⟩

/-- One decision epoch of dynamic_rh/optimize.py lines 65-167.  The
sample-hour choice, sub-transform construction and sub-DP solve (steps
1-3) are abstracted as `planner nodeIdx elapsedT`, which returns `none`
when the sub-DP status is neither Optimal nor Feasible and otherwise the
sub-schedule.  `decision_hours` is the nominal epoch grid; the time
budget is the spacing to the next decision hour and the final epoch
commits everything (`time_budget = inf`). -/
def rhEpochStep (ETA : α) (num_legs : ℕ) (decision_hours : List α)
    (planner : ℕ → α → Option (List (RHLeg α))) (dp_idx : ℕ) (st : RHState α) : RHState α :=
  if st.halted then st
  else if num_legs ≤ st.nodeIdx then { st with halted := true }
  else if ETA - st.elapsedT ≤ 0 then { st with halted := true }
  else
    match planner st.nodeIdx st.elapsedT with
    | none => { st with halted := true }
    | some schedule =>
      let nominal_hour := decision_hours.getD dp_idx 0
      let is_last : Bool := decide (decision_hours.length ≤ dp_idx + 1)
      let time_budget := decision_hours.getD (dp_idx + 1) 0 - nominal_hour
      let legs_this_round := commitGo is_last time_budget st.nodeIdx schedule 0
      { nodeIdx := st.nodeIdx + legs_this_round.length,
        elapsedT := st.elapsedT + (legs_this_round.map (fun l => l.time_h)).sum,
        elapsedF := st.elapsedF + (legs_this_round.map (fun l => l.fuel_kg)).sum,
        committed := st.committed ++ legs_this_round,
        halted := false }

/-- The driver loop after the first `n` decision epochs
(`for dp_idx, nominal_hour in enumerate(decision_hours)`). -/
def rhRun (ETA : α) (num_legs : ℕ) (decision_hours : List α)
    (planner : ℕ → α → Option (List (RHLeg α))) : ℕ → RHState α
  | 0 => rhInit
  | n + 1 => rhEpochStep ETA num_legs decision_hours planner n
      (rhRun ETA num_legs decision_hours planner n)

end RollingHorizon

section Metrics

/-- Python `round(x)` (no digits): round half to even, on exact
rationals. -/
def roundHalfEven (q : ℚ) : ℤ :=
  let f := ⌊q⌋
  let frac := q - (f : ℚ)
  if frac < 1 / 2 then f
  else if (1 : ℚ) / 2 < frac then f + 1
  else if f % 2 = 0 then f else f + 1

/-- Python `round(x, n)`: round half to even at `n` decimal digits. -/
def roundTo (n : ℕ) (q : ℚ) : ℚ :=
  (roundHalfEven (q * 10 ^ n) : ℚ) / 10 ^ n

/-- The metrics dict returned by metrics.py `compute_result_metrics`. -/
structure ResultMetrics where
  fuel_gap_percent : ℚ
  fuel_per_nm : ℚ
  avg_sog_knots : ℚ

/-- metrics.py `compute_result_metrics`: guarded ratios
(`0.0` whenever the corresponding denominator is not strictly positive)
rounded to 4/6/4 decimal places. -/
def compute_result_metrics (planned_fuel sim_fuel total_distance_nm sim_time : ℚ) :
    ResultMetrics :=
  let fuel_gap_pct := if 0 < planned_fuel then (sim_fuel - planned_fuel) / planned_fuel * 100 else 0
  let fuel_per_nm := if 0 < total_distance_nm then sim_fuel / total_distance_nm else 0
  let avg_sog := if 0 < sim_time then total_distance_nm / sim_time else 0
  { fuel_gap_percent := roundTo 4 fuel_gap_pct,
    fuel_per_nm := roundTo 6 fuel_per_nm,
    avg_sog_knots := roundTo 4 avg_sog }

end Metrics

/-- Consistency of a best-so-far record of the inverse-SWS search: the
recorded error is the residual of the recorded SWS. -/
def bestInv (f : ℝ → ℝ) (target : ℝ) : Option (ℝ × ℝ) → Prop
  | none => True
  | some (x, e) => e = |f x - target|

/-! ## Theorems -/

section FcrTheorems

/-- Claim C8, counterexample.  FCR is not strictly increasing on the
engine range [1, 2]: below the 0.1 floor crossover (≈ 5.21 knots) the
function is constant, so a configuration with a small `min_speed` breaks
the strictness clause of the claim. -/
theorem fcr_c8_counterexample :
    ¬ StrictMonoOn (calculate_fuel_consumption_rate : ℚ → ℚ) (Set.Icc 1 2) := by
  intro h
  have h3 := h (show (1 : ℚ) ∈ Set.Icc (1 : ℚ) 2 by norm_num)
    (show (3 / 2 : ℚ) ∈ Set.Icc (1 : ℚ) 2 by norm_num) (by norm_num)
  have he1 : calculate_fuel_consumption_rate (1 : ℚ) = 1 / 10 := by
    unfold calculate_fuel_consumption_rate
    rw [max_eq_right (by norm_num : (706 : ℚ) / 1000000 * 1 ^ 3 ≤ 1 / 10)]
  have he2 : calculate_fuel_consumption_rate (3 / 2 : ℚ) = 1 / 10 := by
    unfold calculate_fuel_consumption_rate
    rw [max_eq_right (by norm_num : (706 : ℚ) / 1000000 * (3 / 2) ^ 3 ≤ 1 / 10)]
  rw [he1, he2] at h3
  exact lt_irrefl _ h3

/-- Claim C8, amended.  FCR(Vsw) = max(0.000706·Vsw³, 0.1) for every Vsw;
it is monotone non-decreasing on Vsw ≥ 0; and it is strictly increasing
on every engine range [min_speed, max_speed] whose lower end clears the
0.1 floor (0.1 ≤ 0.000706·min_speed³, true of every speed range the
project configures, all of which have min_speed ≥ 8). -/
theorem fcr_c8_spec {α : Type} [LinearOrderedField α] :
    (∀ v : α, calculate_fuel_consumption_rate v = max (706 / 1000000 * v ^ 3) (1 / 10))
    ∧ (∀ x y : α, 0 ≤ x → x ≤ y →
        calculate_fuel_consumption_rate x ≤ calculate_fuel_consumption_rate y)
    ∧ (∀ min_s max_s x y : α, 1 / 10 ≤ 706 / 1000000 * min_s ^ 3 →
        min_s ≤ x → x < y → y ≤ max_s →
        calculate_fuel_consumption_rate x < calculate_fuel_consumption_rate y) := by
  refine ⟨fun v => rfl, ?_, ?_⟩
  · intro x y hx hxy
    exact max_le_max
      (mul_le_mul_of_nonneg_left (pow_le_pow_left₀ hx hxy 3) (by norm_num)) le_rfl
  · intro min_s max_s x y hmin hmx hxy hym
    have hc : (0 : α) < 706 / 1000000 := by norm_num
    have hmin0 : (0 : α) < min_s := by
      by_contra hh
      push_neg at hh
      have h3 : min_s ^ 3 ≤ 0 := Odd.pow_nonpos (by decide) hh
      nlinarith
    have hx0 : (0 : α) < x := lt_of_lt_of_le hmin0 hmx
    have hcx : (1 : α) / 10 ≤ 706 / 1000000 * x ^ 3 :=
      le_trans hmin
        (mul_le_mul_of_nonneg_left (pow_le_pow_left₀ hmin0.le hmx 3) (by norm_num))
    have hlt : 706 / 1000000 * x ^ 3 < (706 : α) / 1000000 * y ^ 3 :=
      (mul_lt_mul_left hc).mpr (pow_lt_pow_left₀ hxy hx0.le (by norm_num))
    calc calculate_fuel_consumption_rate x = 706 / 1000000 * x ^ 3 := max_eq_left hcx
      _ < 706 / 1000000 * y ^ 3 := hlt
      _ ≤ calculate_fuel_consumption_rate y := le_max_left _ _

/-- Witness for the amended C8 at a concrete configured range [8, 14]. -/
theorem fcr_c8_witness :
    calculate_fuel_consumption_rate (8 : ℚ) ≤ calculate_fuel_consumption_rate (9 : ℚ)
    ∧ calculate_fuel_consumption_rate (9 : ℚ) < calculate_fuel_consumption_rate (10 : ℚ) :=
  ⟨(fcr_c8_spec (α := ℚ)).2.1 8 9 (by norm_num) (by norm_num),
   (fcr_c8_spec (α := ℚ)).2.2 8 14 9 10 (by norm_num) (by norm_num) (by norm_num) (by norm_num)⟩

end FcrTheorems

section MetricsTheorems

/-- Rounding zero at any number of digits gives zero. -/
theorem roundTo_zero (n : ℕ) : roundTo n 0 = 0 := by
  unfold roundTo roundHalfEven
  norm_num

/-- Claim C9, counterexample.  `compute_result_metrics` rounds the fuel
gap to four decimal places, so for planned fuel 3 kg and simulated fuel
4 kg the returned gap is 33.3333, not the exact ratio (4−3)/3·100. -/
theorem metrics_c9_counterexample :
    (compute_result_metrics 3 4 1 1).fuel_gap_percent ≠ (4 - 3) / 3 * 100 := by
  have h1 : (compute_result_metrics 3 4 1 1).fuel_gap_percent = roundTo 4 ((4 - 3) / 3 * 100) := by
    simp only [compute_result_metrics]
    rw [if_pos (by norm_num : (0 : ℚ) < 3)]
  have h2 : roundHalfEven ((4 - 3) / 3 * 100 * 10 ^ 4 : ℚ) = 333333 := by
    have ha : ((4 - 3) / 3 * 100 * 10 ^ 4 : ℚ) = 1000000 / 3 := by norm_num
    have hf : ⌊(1000000 / 3 : ℚ)⌋ = 333333 := by
      rw [Int.floor_eq_iff]
      norm_num
    unfold roundHalfEven
    rw [ha, hf]
    norm_num
  rw [h1]
  unfold roundTo
  rw [h2]
  norm_num

/-- Claim C9, amended.  `compute_result_metrics` is total and guards each
division: each of the three metrics is 0.0 when its denominator is not
strictly positive, and otherwise equals the corresponding exact ratio
rounded half-to-even at 4, 6 and 4 decimal places respectively. -/
theorem metrics_c9_spec (planned_fuel sim_fuel total_distance_nm sim_time : ℚ) :
    (planned_fuel ≤ 0 →
      (compute_result_metrics planned_fuel sim_fuel total_distance_nm sim_time).fuel_gap_percent = 0)
    ∧ (0 < planned_fuel →
      (compute_result_metrics planned_fuel sim_fuel total_distance_nm sim_time).fuel_gap_percent
        = roundTo 4 ((sim_fuel - planned_fuel) / planned_fuel * 100))
    ∧ (total_distance_nm ≤ 0 →
      (compute_result_metrics planned_fuel sim_fuel total_distance_nm sim_time).fuel_per_nm = 0)
    ∧ (0 < total_distance_nm →
      (compute_result_metrics planned_fuel sim_fuel total_distance_nm sim_time).fuel_per_nm
        = roundTo 6 (sim_fuel / total_distance_nm))
    ∧ (sim_time ≤ 0 →
      (compute_result_metrics planned_fuel sim_fuel total_distance_nm sim_time).avg_sog_knots = 0)
    ∧ (0 < sim_time →
      (compute_result_metrics planned_fuel sim_fuel total_distance_nm sim_time).avg_sog_knots
        = roundTo 4 (total_distance_nm / sim_time)) := by
  refine ⟨?_, ?_, ?_, ?_, ?_, ?_⟩ <;> intro h
  · simp only [compute_result_metrics]
    rw [if_neg (not_lt.mpr h)]
    exact roundTo_zero _
  · simp only [compute_result_metrics]
    rw [if_pos h]
  · simp only [compute_result_metrics]
    rw [if_neg (not_lt.mpr h)]
    exact roundTo_zero _
  · simp only [compute_result_metrics]
    rw [if_pos h]
  · simp only [compute_result_metrics]
    rw [if_neg (not_lt.mpr h)]
    exact roundTo_zero _
  · simp only [compute_result_metrics]
    rw [if_pos h]

/-- Witness for the amended C9: a guarded case and a positive case. -/
theorem metrics_c9_witness :
    (compute_result_metrics 0 5 0 0).fuel_gap_percent = 0
    ∧ (compute_result_metrics 2 4 5 10).fuel_gap_percent = roundTo 4 ((4 - 2) / 2 * 100) :=
  ⟨(metrics_c9_spec 0 5 0 0).1 (by norm_num),
   (metrics_c9_spec 2 4 5 10).2.1 (by norm_num)⟩

end MetricsTheorems

section SogTheorems

/-- Claim C7.  The composite SOG applies exactly the factor 0.965 to the
vector-synthesis result when BN ≥ 5 and applies no factor when BN < 5. -/
theorem sog_c7_bn5_factor (ship_speed ocean_current current_direction ship_heading
    wind_direction : ℝ) (beaufort_scale : ℤ) (wave_height : ℝ) (p : ShipParams) :
    ((5 : ℤ) ≤ beaufort_scale →
      calculate_speed_over_ground ship_speed ocean_current current_direction ship_heading
          wind_direction beaufort_scale wave_height p
        = 0.965 * sogBeforeBeaufortFactor ship_speed ocean_current current_direction
            ship_heading wind_direction beaufort_scale wave_height p)
    ∧ (beaufort_scale < 5 →
      calculate_speed_over_ground ship_speed ocean_current current_direction ship_heading
          wind_direction beaufort_scale wave_height p
        = sogBeforeBeaufortFactor ship_speed ocean_current current_direction
            ship_heading wind_direction beaufort_scale wave_height p) := by
  constructor
  · intro h
    simp only [calculate_speed_over_ground, if_pos h]
    ring
  · intro h
    simp only [calculate_speed_over_ground, if_neg (not_le.mpr h)]

/-- Witness for C7 at BN = 5 and BN = 3. -/
theorem sog_c7_witness :
    calculate_speed_over_ground 10 0 0 0 0 5 1 defaultShipParams
      = 0.965 * sogBeforeBeaufortFactor 10 0 0 0 0 5 1 defaultShipParams
    ∧ calculate_speed_over_ground 10 0 0 0 0 3 1 defaultShipParams
      = sogBeforeBeaufortFactor 10 0 0 0 0 3 1 defaultShipParams :=
  ⟨(sog_c7_bn5_factor 10 0 0 0 0 5 1 defaultShipParams).1 (by norm_num),
   (sog_c7_bn5_factor 10 0 0 0 0 3 1 defaultShipParams).2 (by norm_num)⟩

/-- Vector synthesis with zero current collapses to the absolute value of
the weather-corrected speed. -/
theorem sog_vector_synthesis_no_current (w a g : ℝ) :
    calculate_sog_vector_synthesis w a 0 g = |w| := by
  unfold calculate_sog_vector_synthesis
  rw [zero_mul, add_zero, zero_mul, add_zero, mul_pow, mul_pow, ← mul_add,
    Real.sin_sq_add_cos_sq, mul_one, Real.sqrt_sq_eq_abs]

/-- At BN = 0 the ship form coefficient vanishes. -/
theorem ship_form_coefficient_bn_zero (vol : ℝ) :
    calculate_ship_form_coefficient 0 vol Loading.normal = 0 := by
  simp [calculate_ship_form_coefficient,
    Real.zero_rpow (show (6.5 : ℝ) ≠ 0 by norm_num)]

/-- In calm water (BN = 0, zero current) the composite SOG evaluates to
max(Vsw, 1): the speed loss is zero but the weather-corrected speed is
floored at 1.0 knot. -/
theorem sog_calm_eval (Vsw current_direction ship_heading wind_direction wave_height : ℝ)
    (p : ShipParams) :
    calculate_speed_over_ground Vsw 0 current_direction ship_heading wind_direction 0
        wave_height p = max Vsw 1 := by
  have hbn : ¬ (5 : ℤ) ≤ (0 : ℤ) := by norm_num
  have hloss : ∀ cb cu : ℝ, calculate_speed_loss_percentage cb cu 0 = 0 := by
    intro cb cu
    simp [calculate_speed_loss_percentage]
  have hvw : calculate_weather_corrected_speed Vsw 0 = max Vsw 1 := by
    simp [calculate_weather_corrected_speed]
  simp only [calculate_speed_over_ground, if_neg hbn, sogBeforeBeaufortFactor,
    ship_form_coefficient_bn_zero, hloss, hvw, sog_vector_synthesis_no_current]
  exact abs_of_nonneg (le_trans zero_le_one (le_max_right Vsw 1))

/-- Claim C6, counterexample.  In calm water at Vsw = 0.5 knots the
returned SOG is 1.0 (the weather-corrected speed's 1.0-knot floor), not
Vsw: the claim's unrestricted quantification over Vsw fails. -/
theorem sog_c6_counterexample :
    calculate_speed_over_ground (1 / 2) 0 0 0 0 0 1 defaultShipParams ≠ 1 / 2 := by
  rw [sog_calm_eval, max_eq_right (by norm_num : (1 : ℝ) / 2 ≤ 1)]
  norm_num

/-- Claim C6, amended.  For every Vsw ≥ 1 knot (above the 1.0-knot floor
of the weather-corrected speed), every heading, wind/current direction,
wave height and ship parameters, with BN = 0 and zero current the
composite SOG is exactly Vsw. -/
theorem sog_c6_calm_water (Vsw current_direction ship_heading wind_direction
    wave_height : ℝ) (p : ShipParams) (h : 1 ≤ Vsw) :
    calculate_speed_over_ground Vsw 0 current_direction ship_heading wind_direction 0
        wave_height p = Vsw := by
  rw [sog_calm_eval, max_eq_left h]

/-- Witness for the amended C6 at Vsw = 2. -/
theorem sog_c6_witness :
    (1 : ℝ) ≤ 2
    ∧ calculate_speed_over_ground 2 0 0 0 0 0 1 defaultShipParams = 2 :=
  ⟨by norm_num, sog_c6_calm_water 2 0 0 0 1 defaultShipParams (by norm_num)⟩

end SogTheorems

section SimSkipTheorems

/-- Claim C10.  When the schedule lookup misses for a leg (no entry with
its node id for per-leg schedules, no entry with its segment index for
per-segment schedules), the loop body returns its state unchanged — no
row is emitted, no cumulative total moves, no counter is touched — and
removing such a leg from the walked list leaves the whole simulation
unchanged. -/
theorem sim_c10_missing_entry_skips {α : Type} [LinearOrderedField α]
    (minS maxS : α) (invSws fwdSog : SimLeg α → α → α)
    (speed_schedule : List (SchedEntry α)) (st : SimState α) (leg : SimLeg α)
    (legs1 legs2 : List (SimLeg α))
    (h : scheduleLookup speed_schedule leg = none) :
    legStep minS maxS invSws fwdSog speed_schedule st leg = st
    ∧ simulate_voyage minS maxS invSws fwdSog speed_schedule (legs1 ++ leg :: legs2)
      = simulate_voyage minS maxS invSws fwdSog speed_schedule (legs1 ++ legs2) := by
  have hstep : ∀ s : SimState α, legStep minS maxS invSws fwdSog speed_schedule s leg = s := by
    intro s
    unfold legStep
    rw [h]
  refine ⟨hstep st, ?_⟩
  unfold simulate_voyage
  rw [List.foldl_append, List.foldl_append, List.foldl_cons, hstep]

/-- Witness for C10: an empty schedule misses every leg. -/
theorem sim_c10_witness :
    legStep (8 : ℚ) 14 (fun _ t => t) (fun _ s => s) [] simInit ⟨0, 0, 1⟩ = simInit
    ∧ simulate_voyage (8 : ℚ) 14 (fun _ t => t) (fun _ s => s) [] ([] ++ ⟨0, 0, 1⟩ :: [])
      = simulate_voyage (8 : ℚ) 14 (fun _ t => t) (fun _ s => s) [] ([] ++ []) :=
  sim_c10_missing_entry_skips 8 14 (fun _ t => t) (fun _ s => s) [] simInit ⟨0, 0, 1⟩ [] [] rfl

end SimSkipTheorems

section SwsSearchTheorems

/-- Once the best-so-far is populated, the search loop always returns a
populated best-so-far. -/
theorem searchGo_isSome (f : ℝ → ℝ) (target tolerance : ℝ) :
    ∀ (n : ℕ) (lo hi : ℝ) (p : ℝ × ℝ),
      ∃ q, searchGo f target tolerance n lo hi (some p) = some q := by
  intro n
  induction n with
  | zero => intro lo hi p; exact ⟨p, rfl⟩
  | succ n ih =>
    intro lo hi p
    obtain ⟨bs, be⟩ := p
    simp only [searchGo]
    split_ifs
    all_goals first
      | exact ⟨_, rfl⟩
      | apply ih

/-- Starting from an empty best-so-far, at least one iteration always
returns a populated best-so-far. -/
theorem searchGo_none_isSome (f : ℝ → ℝ) (target tolerance : ℝ) (n : ℕ) (hn : n ≠ 0)
    (lo hi : ℝ) :
    ∃ q, searchGo f target tolerance n lo hi none = some q := by
  obtain ⟨m, rfl⟩ := Nat.exists_eq_succ_of_ne_zero hn
  simp only [searchGo]
  split_ifs
  all_goals first
    | exact ⟨_, rfl⟩
    | apply searchGo_isSome

/-- Invariant of the search loop: the recorded best error is the residual
of the recorded best SWS. -/
theorem searchGo_err_inv (f : ℝ → ℝ) (target tolerance : ℝ) :
    ∀ (n : ℕ) (lo hi : ℝ) (b : Option (ℝ × ℝ)), bestInv f target b →
      ∀ x e, searchGo f target tolerance n lo hi b = some (x, e) → e = |f x - target| := by
  intro n
  induction n with
  | zero =>
    intro lo hi b hb x e h
    simp only [searchGo] at h
    rw [h] at hb
    exact hb
  | succ n ih =>
    intro lo hi b hb x e h
    rcases b with _ | ⟨bs, be⟩
    · simp only [searchGo] at h
      split_ifs at h
      all_goals first
        | (injection h with h1; injection h1 with hx he; subst hx; subst he; rfl)
        | (refine ih _ _ _ ?_ x e h; exact rfl)
    · have hbe : be = |f bs - target| := hb
      simp only [searchGo] at h
      split_ifs at h
      all_goals first
        | (injection h with h1; injection h1 with hx he; subst hx; subst he; rfl)
        | (injection h with h1; injection h1 with hx he; subst hx; subst he; exact hbe)
        | (refine ih _ _ _ ?_ x e h; exact rfl)
        | (refine ih _ _ _ ?_ x e h; exact hbe)

/-- Claim C5.  `calculate_sws_from_sog` always terminates with a value:
the bracketed binary search records a best `(best_sws, best_error)` pair
whose error is the true residual `|SOG(best_sws) − target|`, and the
function returns `best_sws` exactly when that residual is strictly below
0.1 knots, and the unchanged `target_sog` otherwise. -/
theorem sws_c5_fallback_spec (target_sog : ℝ) (weather : Weather)
    (ship_heading_deg : ℝ) (p : ShipParams) :
    ∃ best_sws best_error,
      searchGo (swsSogAt weather ship_heading_deg p) target_sog 0.001 50
          (swsSearchLo (swsSogAt weather ship_heading_deg p) target_sog)
          (swsSearchHi (swsSogAt weather ship_heading_deg p) target_sog) none
        = some (best_sws, best_error)
      ∧ best_error = |swsSogAt weather ship_heading_deg p best_sws - target_sog|
      ∧ calculate_sws_from_sog target_sog weather ship_heading_deg p
        = if best_error < 0.1 then best_sws else target_sog := by
  obtain ⟨q, hq⟩ := searchGo_none_isSome (swsSogAt weather ship_heading_deg p) target_sog
    0.001 50 (by norm_num)
    (swsSearchLo (swsSogAt weather ship_heading_deg p) target_sog)
    (swsSearchHi (swsSogAt weather ship_heading_deg p) target_sog)
  obtain ⟨bs, be⟩ := q
  refine ⟨bs, be, hq, ?_, ?_⟩
  · exact searchGo_err_inv (swsSogAt weather ship_heading_deg p) target_sog 0.001 50 _ _
      none trivial bs be hq
  · unfold calculate_sws_from_sog
    simp only [hq]

end SwsSearchTheorems

section DPEdgeTheorems

variable {α : Type} [LinearOrderedField α] [FloorRing α]

/-- Keys of an in-place overwrite: every key of the result was already a
key or is the written key. -/
theorem assocSet_keys_mem (t'' t : ℤ) (c : DPCell α) :
    ∀ l : List (ℤ × DPCell α), t'' ∈ (assocSet l t c).map Prod.fst →
      t'' ∈ l.map Prod.fst ∨ t'' = t := by
  intro l
  induction l with
  | nil =>
    intro h
    unfold assocSet at h
    rw [List.map_cons, List.mem_cons] at h
    rcases h with h | h
    · right; exact h
    · simp at h
  | cons e rest ih =>
    intro h
    unfold assocSet at h
    split_ifs at h with he
    · rw [List.map_cons, List.mem_cons] at h
      rcases h with h | h
      · right; exact h
      · left; rw [List.map_cons, List.mem_cons]; right; exact h
    · rw [List.map_cons, List.mem_cons] at h
      rcases h with h | h
      · left; rw [List.map_cons, List.mem_cons]; left; exact h
      · rcases ih h with h2 | h2
        · left; rw [List.map_cons, List.mem_cons]; right; exact h2
        · right; exact h2

/-- Keys of a relaxation: every key of the result was already a key of
the map or is the relaxed target slot. -/
theorem dpUpdate_keys_mem (next : List (ℤ × DPCell α)) (t_next t : ℤ) (c : α) (k : ℕ)
    (t'' : ℤ) (h : t'' ∈ (dpUpdate next t_next c t k).map Prod.fst) :
    t'' ∈ next.map Prod.fst ∨ t'' = t_next := by
  unfold dpUpdate at h
  cases hg : assocGet next t_next with
  | none =>
    simp only [hg] at h
    rw [List.map_append, List.mem_append] at h
    rcases h with h | h
    · left; exact h
    · right; simpa using h
  | some cell =>
    simp only [hg] at h
    split_ifs at h
    · exact assocSet_keys_mem t'' t_next _ next h
    · left; exact h

/-- Keys soundness of the inner speed loop: any key produced over a list
of speed indices comes from the accumulator or from an accepted edge. -/
theorem dpInner_keys (dt : α) (mts : ℤ) (dist : α) (sogRaw : ℤ → ℕ → α) (fcr : List α)
    (e : ℤ × DPCell α) (t'' : ℤ) :
    ∀ (ks : List ℕ) (next : List (ℤ × DPCell α)),
      t'' ∈ ((ks.foldl (fun next2 k =>
          match dpEdge dt mts dist (fcr.getD k 0) (sogRaw e.1 k) e.1 with
          | none => next2
          | some p => dpUpdate next2 p.1 (e.2.cost + p.2) e.1 k) next).map Prod.fst) →
      t'' ∈ next.map Prod.fst
      ∨ ∃ k ∈ ks, ∃ c, dpEdge dt mts dist (fcr.getD k 0) (sogRaw e.1 k) e.1 = some (t'', c) := by
  intro ks
  induction ks with
  | nil => intro next h; left; exact h
  | cons k rest ih =>
    intro next h
    rw [List.foldl_cons] at h
    cases hE : dpEdge dt mts dist (fcr.getD k 0) (sogRaw e.1 k) e.1 with
    | none =>
      simp only [hE] at h
      rcases ih _ h with h1 | h1
      · left; exact h1
      · right
        obtain ⟨k', hk', hc⟩ := h1
        exact ⟨k', List.mem_cons_of_mem _ hk', hc⟩
    | some p =>
      simp only [hE] at h
      rcases ih _ h with h1 | h1
      · rcases dpUpdate_keys_mem _ _ _ _ _ _ h1 with h2 | h2
        · left; exact h2
        · right
          refine ⟨k, List.mem_cons_self _ _, p.2, ?_⟩
          rw [hE, h2]
      · right
        obtain ⟨k', hk', hc⟩ := h1
        exact ⟨k', List.mem_cons_of_mem _ hk', hc⟩

/-- Keys soundness of one DP layer: any reachable slot in node `i + 1`
arises from an accepted edge out of some reachable cell of node `i`. -/
theorem dpLayerStep_keys (dt : α) (mts : ℤ) (dist : α) (sogRaw : ℤ → ℕ → α) (fcr : List α)
    (t'' : ℤ) :
    ∀ (cur next : List (ℤ × DPCell α)),
      t'' ∈ ((cur.foldl (fun next e =>
          (List.range fcr.length).foldl (fun next2 k =>
            match dpEdge dt mts dist (fcr.getD k 0) (sogRaw e.1 k) e.1 with
            | none => next2
            | some p => dpUpdate next2 p.1 (e.2.cost + p.2) e.1 k) next) next).map Prod.fst) →
      t'' ∈ next.map Prod.fst
      ∨ ∃ e ∈ cur, ∃ k < fcr.length, ∃ c,
          dpEdge dt mts dist (fcr.getD k 0) (sogRaw e.1 k) e.1 = some (t'', c) := by
  intro cur
  induction cur with
  | nil => intro next h; left; exact h
  | cons e rest ih =>
    intro next h
    rw [List.foldl_cons] at h
    rcases ih _ h with h1 | h1
    · rcases dpInner_keys dt mts dist sogRaw fcr e t'' _ _ h1 with h2 | h2
      · left; exact h2
      · right
        obtain ⟨k, hk, hc⟩ := h2
        exact ⟨e, List.mem_cons_self _ _, k, List.mem_range.mp hk, hc⟩
    · right
      obtain ⟨e', he', rest'⟩ := h1
      exact ⟨e', List.mem_cons_of_mem _ he', rest'⟩

/-- Claim C2.  An accepted DP edge from cell `(i, t)` with speed index
`k` targets slot `t' = ⌈(t·Δt + dᵢ/max(SOG, 0.1)) / Δt⌉` at edge cost
`FCR[k] · dᵢ/max(SOG, 0.1)`; edges with `t' ≥ T_max` are rejected; for
non-negative leg distance and positive Δt the target slot never
decreases (`t ≤ t'`); and every slot reachable in node `i + 1` arises
from such an accepted edge out of a reachable cell of node `i` — edges
advance the node index by one. -/
theorem dp_c2_edge_spec (dt : α) (max_time_slots : ℤ) (dist : α) (fcr : List α)
    (sogRaw : ℤ → ℕ → α) (hdist : 0 ≤ dist) (hdt : 0 < dt) :
    (∀ (t : ℤ) (fcr_k raw : α) (p : ℤ × α),
        dpEdge dt max_time_slots dist fcr_k raw t = some p →
          p.1 = ⌈((t : α) * dt + dist / max raw (1 / 10)) / dt⌉
          ∧ p.2 = fcr_k * (dist / max raw (1 / 10))
          ∧ p.1 < max_time_slots
          ∧ t ≤ p.1)
    ∧ (∀ (t : ℤ) (fcr_k raw : α),
        max_time_slots ≤ ⌈((t : α) * dt + dist / max raw (1 / 10)) / dt⌉ →
          dpEdge dt max_time_slots dist fcr_k raw t = none)
    ∧ (∀ (cur : List (ℤ × DPCell α)) (t'' : ℤ),
        t'' ∈ (dpLayerStep dt max_time_slots dist sogRaw fcr cur).map Prod.fst →
          ∃ e ∈ cur, ∃ k < fcr.length, ∃ c,
            dpEdge dt max_time_slots dist (fcr.getD k 0) (sogRaw e.1 k) e.1 = some (t'', c)) := by
  have hsog : ∀ raw : α, (0 : α) < max raw (1 / 10) := fun raw =>
    lt_of_lt_of_le (by norm_num) (le_max_right _ _)
  refine ⟨?_, ?_, ?_⟩
  · intro t fcr_k raw p hp
    simp only [dpEdge] at hp
    split_ifs at hp with hc
    · injection hp with h1
      rw [← h1]
      refine ⟨rfl, rfl, not_le.mp hc, ?_⟩
      have htr : 0 ≤ dist / max raw (1 / 10) := div_nonneg hdist (hsog raw).le
      have hle : (t : α) ≤ ((t : α) * dt + dist / max raw (1 / 10)) / dt := by
        rw [le_div_iff₀ hdt]
        linarith
      have h2 := Int.ceil_le_ceil hle
      rwa [Int.ceil_intCast] at h2
  · intro t fcr_k raw h
    simp only [dpEdge]
    rw [if_pos h]
  · intro cur t'' h
    unfold dpLayerStep at h
    rcases dpLayerStep_keys dt max_time_slots dist sogRaw fcr t'' cur [] h with h1 | h1
    · simp at h1
    · exact h1

/-- Witness for C2 at a concrete accepted edge: `dt = 1`, `T_max = 100`,
distance 10, FCR 2, raw SOG 5 from slot 0 lands in slot 2 at cost 4. -/
theorem dp_c2_witness :
    ((2 : ℤ) = ⌈(((0 : ℤ) : ℚ) * 1 + 10 / max 5 (1 / 10)) / 1⌉)
    ∧ ((4 : ℚ) = 2 * (10 / max (5 : ℚ) (1 / 10)))
    ∧ ((2 : ℤ) < 100) ∧ ((0 : ℤ) ≤ 2) := by
  have hmax : max (5 : ℚ) (1 / 10) = 5 := max_eq_left (by norm_num)
  have hE : dpEdge (1 : ℚ) 100 10 2 5 0 = some (2, 4) := by
    simp only [dpEdge, hmax]
    have hc : ⌈(((0 : ℤ) : ℚ) * 1 + 10 / 5) / 1⌉ = 2 := by
      norm_num
    rw [hc]
    norm_num
  have h := (dp_c2_edge_spec (α := ℚ) 1 100 10 [2] (fun _ _ => 5)
    (by norm_num) (by norm_num)).1 0 2 5 (2, 4) hE
  exact ⟨h.1, h.2.1, h.2.2.1, h.2.2.2⟩

end DPEdgeTheorems

section SimClampTheorems

variable {α : Type} [LinearOrderedField α]

/-- A leg whose schedule lookup misses is not processed. -/
theorem legProcessed_of_none (speed_schedule : List (SchedEntry α)) (leg : SimLeg α)
    (h : scheduleLookup speed_schedule leg = none) :
    legProcessed speed_schedule leg = false := by
  simp [legProcessed, h]

/-- A leg with non-positive distance is not processed. -/
theorem legProcessed_of_nonpos (speed_schedule : List (SchedEntry α)) (leg : SimLeg α)
    (h : leg.dist ≤ 0) : legProcessed speed_schedule leg = false := by
  simp [legProcessed, not_lt.mpr h]

/-- A leg skipped for non-positive distance leaves the state unchanged. -/
theorem legStep_of_nonpos (minS maxS : α) (invSws fwdSog : SimLeg α → α → α)
    (speed_schedule : List (SchedEntry α)) (st : SimState α) (leg : SimLeg α) (tgt : α)
    (htgt : scheduleLookup speed_schedule leg = some tgt) (h : leg.dist ≤ 0) :
    legStep minS maxS invSws fwdSog speed_schedule st leg = st := by
  unfold legStep
  rw [htgt]
  simp only [if_pos h]

/-- A leg missing from the schedule leaves the state unchanged. -/
theorem legStep_of_none (minS maxS : α) (invSws fwdSog : SimLeg α → α → α)
    (speed_schedule : List (SchedEntry α)) (st : SimState α) (leg : SimLeg α)
    (h : scheduleLookup speed_schedule leg = none) :
    legStep minS maxS invSws fwdSog speed_schedule st leg = st := by
  unfold legStep
  rw [h]

/-- Row- and counter-level characterization of one processed leg. -/
theorem legStep_core_spec (minS maxS : α) (invSws fwdSog : SimLeg α → α → α)
    (speed_schedule : List (SchedEntry α)) (st : SimState α) (leg : SimLeg α) (tgt : α)
    (htgt : scheduleLookup speed_schedule leg = some tgt) (hd : ¬ leg.dist ≤ 0) :
    ((legStep minS maxS invSws fwdSog speed_schedule st leg).rows.map SimRow.toSimRowCore
      = st.rows.map SimRow.toSimRowCore
        ++ [legCore minS maxS invSws fwdSog speed_schedule leg])
    ∧ (legStep minS maxS invSws fwdSog speed_schedule st leg).swsViolations
      = st.swsViolations
        + (if legViolB minS maxS invSws speed_schedule leg then 1 else 0) := by
  have hviol : legViolB minS maxS invSws speed_schedule leg
      = decide ((1 : α) / 100 <
          |max minS (min maxS (invSws leg tgt)) - invSws leg tgt|) := by
    simp [legViolB, legClampedOf, legRequiredOf, legTargetOf, htgt]
  constructor
  · unfold legStep
    rw [htgt]
    simp only [if_neg hd, List.map_append, List.map_cons, List.map_nil]
    congr 1
    simp only [legCore, legActualSogOf, hviol, legClampedOf, legRequiredOf, legTargetOf,
      htgt, Option.getD_some, decide_eq_true_eq]
  · unfold legStep
    rw [htgt]
    simp only [if_neg hd, hviol, decide_eq_true_eq]
    by_cases hv : (1 : α) / 100 < |max minS (min maxS (invSws leg tgt)) - invSws leg tgt|
    · simp only [if_pos hv]
    · simp only [if_neg hv, add_zero]

/-- Fold-level characterization of the simulation loop: the emitted row
cores are exactly the cores of the processed legs in order, and the
violation counter counts exactly the processed legs whose clamp moved the
SWS by more than 0.01 knots. -/
theorem simFold_spec (minS maxS : α) (invSws fwdSog : SimLeg α → α → α)
    (speed_schedule : List (SchedEntry α)) :
    ∀ (legs : List (SimLeg α)) (st : SimState α),
      ((legs.foldl (legStep minS maxS invSws fwdSog speed_schedule) st).rows.map
          SimRow.toSimRowCore
        = st.rows.map SimRow.toSimRowCore
          ++ (legs.filter (legProcessed speed_schedule)).map
              (legCore minS maxS invSws fwdSog speed_schedule))
      ∧ (legs.foldl (legStep minS maxS invSws fwdSog speed_schedule) st).swsViolations
        = st.swsViolations
          + (legs.filter (fun l => legProcessed speed_schedule l
              && legViolB minS maxS invSws speed_schedule l)).length := by
  intro legs
  induction legs with
  | nil => intro st; simp
  | cons leg rest ih =>
    intro st
    rw [List.foldl_cons]
    cases htgt : scheduleLookup speed_schedule leg with
    | none =>
      have hp := legProcessed_of_none speed_schedule leg htgt
      rw [legStep_of_none minS maxS invSws fwdSog speed_schedule st leg htgt]
      have hf1 : (leg :: rest).filter (legProcessed speed_schedule)
          = rest.filter (legProcessed speed_schedule) := by
        rw [List.filter_cons_of_neg]
        simp [hp]
      have hf2 : (leg :: rest).filter (fun l => legProcessed speed_schedule l
            && legViolB minS maxS invSws speed_schedule l)
          = rest.filter (fun l => legProcessed speed_schedule l
            && legViolB minS maxS invSws speed_schedule l) := by
        rw [List.filter_cons_of_neg]
        simp [hp]
      rw [hf1, hf2]
      exact ih st
    | some tgt =>
      by_cases hd : leg.dist ≤ 0
      · have hp := legProcessed_of_nonpos speed_schedule leg hd
        rw [legStep_of_nonpos minS maxS invSws fwdSog speed_schedule st leg tgt htgt hd]
        have hf1 : (leg :: rest).filter (legProcessed speed_schedule)
            = rest.filter (legProcessed speed_schedule) := by
          rw [List.filter_cons_of_neg]
          simp [hp]
        have hf2 : (leg :: rest).filter (fun l => legProcessed speed_schedule l
              && legViolB minS maxS invSws speed_schedule l)
            = rest.filter (fun l => legProcessed speed_schedule l
              && legViolB minS maxS invSws speed_schedule l) := by
          rw [List.filter_cons_of_neg]
          simp [hp]
        rw [hf1, hf2]
        exact ih st
      · have hp : legProcessed speed_schedule leg = true := by
          simp [legProcessed, htgt, lt_of_not_le hd]
        obtain ⟨hrows, hviol⟩ := legStep_core_spec minS maxS invSws fwdSog
          speed_schedule st leg tgt htgt hd
        obtain ⟨ihr, ihv⟩ := ih (legStep minS maxS invSws fwdSog speed_schedule st leg)
        constructor
        · rw [ihr, hrows]
          rw [List.filter_cons_of_pos (by simp [hp])]
          rw [List.map_cons]
          rw [List.append_assoc]
          rfl
        · rw [ihv, hviol]
          by_cases hv : legViolB minS maxS invSws speed_schedule leg
          · rw [List.filter_cons_of_pos (by simp [hp, hv])]
            simp only [if_pos hv, List.length_cons]
            omega
          · rw [List.filter_cons_of_neg (by simp [hp, hv])]
            simp only [if_neg hv, add_zero]

/-- Claim C1.  For every processed leg the clamped SWS lies in
[min_speed, max_speed]; the emitted row cores are exactly the cores of
the processed legs, each carrying the clamped SWS and the achieved SOG
(recomputed by the forward physics and floored at 0.1 exactly when the
clamp moved the SWS by more than 0.01 knots, the target SOG otherwise);
and the final violation counter counts exactly the legs whose clamp
moved the SWS by more than 0.01 knots. -/
theorem sim_c1_clamp_spec (minS maxS : α) (invSws fwdSog : SimLeg α → α → α)
    (speed_schedule : List (SchedEntry α)) (legs : List (SimLeg α))
    (hrange : minS ≤ maxS) :
    ((simulate_voyage minS maxS invSws fwdSog speed_schedule legs).rows.map
        SimRow.toSimRowCore
      = (legs.filter (legProcessed speed_schedule)).map
          (legCore minS maxS invSws fwdSog speed_schedule))
    ∧ (∀ l ∈ legs, legProcessed speed_schedule l = true →
        minS ≤ (legCore minS maxS invSws fwdSog speed_schedule l).actual_sws
        ∧ (legCore minS maxS invSws fwdSog speed_schedule l).actual_sws ≤ maxS
        ∧ (legCore minS maxS invSws fwdSog speed_schedule l).actual_sws
            = legClampedOf minS maxS invSws speed_schedule l
        ∧ (legCore minS maxS invSws fwdSog speed_schedule l).actual_sog
            = (if legViolB minS maxS invSws speed_schedule l
               then max (fwdSog l (legClampedOf minS maxS invSws speed_schedule l)) (1 / 10)
               else legTargetOf speed_schedule l))
    ∧ (simulate_voyage minS maxS invSws fwdSog speed_schedule legs).swsViolations
      = (legs.filter (fun l => legProcessed speed_schedule l
          && legViolB minS maxS invSws speed_schedule l)).length := by
  obtain ⟨hrows, hviol⟩ := simFold_spec minS maxS invSws fwdSog speed_schedule legs simInit
  refine ⟨?_, ?_, ?_⟩
  · unfold simulate_voyage
    rw [hrows]
    simp [simInit]
  · intro l _ _
    refine ⟨le_max_left _ _, ?_, rfl, ?_⟩
    · exact max_le hrange (min_le_left _ _)
    · rfl
  · unfold simulate_voyage
    rw [hviol]
    simp [simInit]

/-- Witness for C1: one processed leg whose required SWS equals the
target (10 knots, inside [8, 14]), producing zero violations. -/
theorem sim_c1_witness :
    (8 : ℚ) ≤ 14
    ∧ (simulate_voyage (8 : ℚ) 14 (fun _ t => t) (fun _ s => s)
          [⟨some 0, 0, 10⟩] [⟨0, 0, 5⟩]).swsViolations
      = (([⟨0, 0, 5⟩] : List (SimLeg ℚ)).filter (fun l => legProcessed [⟨some 0, 0, 10⟩] l
          && legViolB 8 14 (fun _ t => t) [⟨some 0, 0, 10⟩] l)).length :=
  ⟨by norm_num,
   (sim_c1_clamp_spec (8 : ℚ) 14 (fun _ t => t) (fun _ s => s)
      [⟨some 0, 0, 10⟩] [⟨0, 0, 5⟩] (by norm_num)).2.2⟩

end SimClampTheorems

section DPSelectTheorems

variable {α : Type} [LinearOrderedField α] [FloorRing α]

/-- Once a best candidate exists, the destination scan keeps one. -/
theorem selectBest_isSome (dt ETA : α) :
    ∀ (l : List (ℤ × DPCell α)) (p : ℤ × α),
      ∃ q, selectBest dt ETA l (some p) = some q := by
  intro l
  induction l with
  | nil => intro p; exact ⟨p, rfl⟩
  | cons e rest ih =>
    intro p
    simp only [selectBest]
    split_ifs
    · exact ih _
    · exact ih _

/-- The scan of the destination cells yields nothing exactly when no cell
meets the ETA cap. -/
theorem selectBest_none_iff (dt ETA : α) :
    ∀ l : List (ℤ × DPCell α),
      (selectBest dt ETA l none = none ↔ ∀ e ∈ l, ¬ ((e.1 : α) * dt ≤ ETA)) := by
  intro l
  induction l with
  | nil => simp [selectBest]
  | cons e rest ih =>
    simp only [selectBest]
    by_cases hc : (e.1 : α) * dt ≤ ETA
    · rw [if_pos (by simpa using hc)]
      obtain ⟨q, hq⟩ := selectBest_isSome dt ETA rest (e.1, e.2.cost)
      rw [hq]
      refine iff_of_false (by simp) (fun h => (h e (List.mem_cons_self e rest)) hc)
    · rw [if_neg (by simpa using hc)]
      rw [ih]
      constructor
      · intro h e' he'
        rcases List.mem_cons.mp he' with he' | he'
        · rw [he']; exact hc
        · exact h e' he'
      · intro h e' he'
        exact h e' (List.mem_cons_of_mem _ he')

/-- The scan keeps a strict first-improvement minimum: a returned pair is
an ETA-feasible destination cell (or the inherited accumulator), its fuel
is a lower bound for every ETA-feasible cell scanned, and it never
exceeds the accumulator it started from. -/
theorem selectBest_min_spec (dt ETA : α) :
    ∀ (l : List (ℤ × DPCell α)) (best : Option (ℤ × α)) (t : ℤ) (f : α),
      selectBest dt ETA l best = some (t, f) →
        ((best = some (t, f)) ∨ (∃ e ∈ l, e.1 = t ∧ e.2.cost = f ∧ (e.1 : α) * dt ≤ ETA))
        ∧ (∀ e ∈ l, (e.1 : α) * dt ≤ ETA → f ≤ e.2.cost)
        ∧ (∀ p, best = some p → f ≤ p.2) := by
  intro l
  induction l with
  | nil =>
    intro best t f h
    simp only [selectBest] at h
    refine ⟨Or.inl h, by simp, ?_⟩
    intro p hp
    rw [h] at hp
    injection hp with hp1
    rw [← hp1]
  | cons e rest ih =>
    intro best t f h
    rcases best with _ | pb
    · simp only [selectBest] at h
      by_cases hc : (e.1 : α) * dt ≤ ETA
      · rw [if_pos (by simpa using hc)] at h
        obtain ⟨ha, hb, hacc⟩ := ih (some (e.1, e.2.cost)) t f h
        refine ⟨?_, ?_, ?_⟩
        · right
          rcases ha with ha | ha
          · injection ha with ha1
            refine ⟨e, List.mem_cons_self e rest, ?_, ?_, hc⟩
            · exact (congrArg Prod.fst ha1)
            · exact (congrArg Prod.snd ha1)
          · obtain ⟨e', he', rest'⟩ := ha
            exact ⟨e', List.mem_cons_of_mem _ he', rest'⟩
        · intro e' he' hce'
          rcases List.mem_cons.mp he' with he' | he'
          · rw [he']
            exact hacc (e.1, e.2.cost) rfl
          · exact hb e' he' hce'
        · intro p hp; cases hp
      · rw [if_neg (by simpa using hc)] at h
        obtain ⟨ha, hb, _⟩ := ih none t f h
        refine ⟨?_, ?_, ?_⟩
        · rcases ha with ha | ha
          · cases ha
          · right
            obtain ⟨e', he', rest'⟩ := ha
            exact ⟨e', List.mem_cons_of_mem _ he', rest'⟩
        · intro e' he' hce'
          rcases List.mem_cons.mp he' with he' | he'
          · rw [he'] at hce'
            exact absurd hce' hc
          · exact hb e' he' hce'
        · intro p hp; cases hp
    · simp only [selectBest] at h
      by_cases hc : (e.1 : α) * dt ≤ ETA ∧ e.2.cost < pb.2
      · rw [if_pos (by simpa using hc)] at h
        obtain ⟨ha, hb, hacc⟩ := ih (some (e.1, e.2.cost)) t f h
        refine ⟨?_, ?_, ?_⟩
        · right
          rcases ha with ha | ha
          · injection ha with ha1
            refine ⟨e, List.mem_cons_self e rest, ?_, ?_, hc.1⟩
            · exact (congrArg Prod.fst ha1)
            · exact (congrArg Prod.snd ha1)
          · obtain ⟨e', he', rest'⟩ := ha
            exact ⟨e', List.mem_cons_of_mem _ he', rest'⟩
        · intro e' he' hce'
          rcases List.mem_cons.mp he' with he' | he'
          · rw [he']
            exact hacc (e.1, e.2.cost) rfl
          · exact hb e' he' hce'
        · intro p hp
          injection hp with hp1
          rw [← hp1]
          exact le_of_lt (lt_of_le_of_lt (hacc (e.1, e.2.cost) rfl) hc.2)
      · rw [if_neg (by simpa using hc)] at h
        obtain ⟨ha, hb, hacc⟩ := ih (some pb) t f h
        refine ⟨?_, ?_, ?_⟩
        · rcases ha with ha | ha
          · left; exact ha
          · right
            obtain ⟨e', he', rest'⟩ := ha
            exact ⟨e', List.mem_cons_of_mem _ he', rest'⟩
        · intro e' he' hce'
          rcases List.mem_cons.mp he' with he' | he'
          · rw [he']
            rw [he'] at hce'
            have hnl : pb.2 ≤ e.2.cost := by
              by_contra hlt
              exact hc ⟨hce', not_le.mp hlt⟩
            exact le_trans (hacc pb rfl) hnl
          · exact hb e' he' hce'
        · exact hacc

/-- Claim C3.  The DP returns Infeasible — carrying no schedule — exactly
when no reachable destination cell satisfies `t·Δt ≤ ETA`; otherwise it
returns a feasible outcome whose arrival slot is a reachable,
ETA-feasible destination cell of minimal cumulative fuel, together with
the schedule backtracked from that cell. -/
theorem dp_c3_infeasible_spec (dt ETA : α) (max_time_slots : ℤ) (num_legs : ℕ)
    (distances : List α) (sogRaw : ℕ → ℤ → ℕ → α) (fcr : List α) :
    (dp_optimize dt ETA max_time_slots num_legs distances sogRaw fcr = DPOutcome.infeasible
      ↔ ∀ e ∈ dpLayers dt max_time_slots distances sogRaw fcr num_legs,
          ¬ ((e.1 : α) * dt ≤ ETA))
    ∧ (∀ (best_t : ℤ) (best_fuel : α) (schedule : List (ℕ × ℕ)),
        dp_optimize dt ETA max_time_slots num_legs distances sogRaw fcr
            = DPOutcome.feasible best_t best_fuel schedule →
          (∃ e ∈ dpLayers dt max_time_slots distances sogRaw fcr num_legs,
              e.1 = best_t ∧ e.2.cost = best_fuel ∧ (best_t : α) * dt ≤ ETA)
          ∧ (∀ e ∈ dpLayers dt max_time_slots distances sogRaw fcr num_legs,
              (e.1 : α) * dt ≤ ETA → best_fuel ≤ e.2.cost)
          ∧ schedule
            = backtrack (dpLayers dt max_time_slots distances sogRaw fcr) num_legs best_t) := by
  constructor
  · unfold dp_optimize
    cases hsel : selectBest dt ETA
        (dpLayers dt max_time_slots distances sogRaw fcr num_legs) none with
    | none =>
      simp only [hsel]
      rw [← selectBest_none_iff dt ETA
        (dpLayers dt max_time_slots distances sogRaw fcr num_legs)]
      rw [hsel]
      simp
    | some p =>
      simp only [hsel]
      refine iff_of_false (by simp) ?_
      intro hall
      obtain ⟨ha, _, _⟩ := selectBest_min_spec dt ETA
        (dpLayers dt max_time_slots distances sogRaw fcr num_legs) none p.1 p.2
        (by rw [hsel])
      rcases ha with ha | ha
      · cases ha
      · obtain ⟨e, he, _, _, hcap⟩ := ha
        exact (hall e he) hcap
  · intro best_t best_fuel schedule h
    unfold dp_optimize at h
    cases hsel : selectBest dt ETA
        (dpLayers dt max_time_slots distances sogRaw fcr num_legs) none with
    | none =>
      simp only [hsel] at h
      cases h
    | some p =>
      simp only [hsel] at h
      injection h with h1 h2 h3
      obtain ⟨ha, hb, _⟩ := selectBest_min_spec dt ETA
        (dpLayers dt max_time_slots distances sogRaw fcr num_legs) none p.1 p.2
        (by rw [hsel])
      refine ⟨?_, ?_, ?_⟩
      · rcases ha with ha | ha
        · cases ha
        · obtain ⟨e, he, he1, he2, hcap⟩ := ha
          exact ⟨e, he, by rw [he1, h1], by rw [he2, h2], by rw [← h1]; rwa [he1] at hcap⟩
      · intro e he hcap
        rw [← h2]
        exact hb e he hcap
      · rw [← h3, ← h1]

/-- Witness for C3 on a zero-leg instance: the destination layer is the
origin cell, slot 0 meets the cap, and the backtracked schedule is
empty. -/
theorem dp_c3_witness :
    ([] : List (ℕ × ℕ))
      = backtrack (dpLayers (1 : ℚ) 100 [] (fun _ _ _ => 5) [2]) 0 0 := by
  have hopt : dp_optimize (1 : ℚ) 10 100 0 [] (fun _ _ _ => 5) [2]
      = DPOutcome.feasible 0 0 [] := by
    norm_num [dp_optimize, dpLayers, selectBest, backtrack]
  exact ((dp_c3_infeasible_spec (α := ℚ) 1 10 100 0 [] (fun _ _ _ => 5) [2]).2
    0 0 [] hopt).2.2

end DPSelectTheorems

section RHTheorems

variable {α : Type} [LinearOrderedField α]

/-- Start time of the first leg of any sub-schedule is zero. -/
theorem rhStartTime_zero (sched : List (RHLeg α)) : rhStartTime sched 0 = 0 := by
  simp [rhStartTime]

/-- Start times shift by the head leg's time across a cons. -/
theorem rhStartTime_cons (l : RHLeg α) (ls : List (RHLeg α)) (j : ℕ) :
    rhStartTime (l :: ls) (j + 1) = l.time_h + rhStartTime ls j := by
  simp [rhStartTime, List.take_succ_cons]

/-- Characterization of the commit loop: on the last epoch it commits the
whole (re-indexed) sub-schedule; on a non-terminal epoch it commits the
maximal prefix of legs whose start times lie strictly below the budget. -/
theorem commitGo_spec (is_last : Bool) (time_budget : α) (idx : ℕ) :
    ∀ (sched : List (RHLeg α)) (s0 : α),
      (is_last = true →
        commitGo is_last time_budget idx sched s0 = sched.map (rhRemap idx))
      ∧ (is_last = false →
        ∃ n, commitGo is_last time_budget idx sched s0 = (sched.take n).map (rhRemap idx)
          ∧ (∀ j < n, s0 + rhStartTime sched j < time_budget)
          ∧ (n < sched.length → time_budget ≤ s0 + rhStartTime sched n)) := by
  intro sched
  induction sched with
  | nil =>
    intro s0
    constructor
    · intro _; rfl
    · intro _
      exact ⟨0, rfl, by omega, by simp⟩
  | cons l ls ih =>
    intro s0
    constructor
    · intro hl
      unfold commitGo
      rw [if_neg (by simp [hl])]
      rw [List.map_cons]
      congr 1
      exact ((ih (s0 + l.time_h)).1) hl
    · intro hl
      unfold commitGo
      by_cases hb : time_budget ≤ s0
      · rw [if_pos (by simp [hl, hb])]
        refine ⟨0, by simp, by omega, ?_⟩
        intro _
        rw [rhStartTime_zero, add_zero]
        exact hb
      · rw [if_neg (by simp [hl, hb])]
        obtain ⟨n, hcomm, hlt, hge⟩ := ((ih (s0 + l.time_h)).2) hl
        refine ⟨n + 1, ?_, ?_, ?_⟩
        · rw [hcomm, List.take_succ_cons, List.map_cons]
        · intro j hj
          cases j with
          | zero =>
            rw [rhStartTime_zero, add_zero]
            exact not_le.mp hb
          | succ j' =>
            rw [rhStartTime_cons, ← add_assoc]
            exact hlt j' (by omega)
        · intro hlen
          rw [rhStartTime_cons, ← add_assoc]
          exact hge (by simpa using hlen)

/-- Claim C4.  At an epoch where the driver is still running and the
sub-planner returns a schedule: the committed legs are appended to the
already-committed list (so legs committed at earlier epochs are never
modified, as the fold-level clause states for every epoch);
`current_node_idx` advances by the number of committed legs; on the
terminal epoch every leg of the sub-plan is committed; on a non-terminal
epoch exactly the maximal prefix of legs with start times strictly below
the spacing to the next decision hour is committed, with each leg's index
re-mapped into the global frame. -/
theorem rh_c4_commit_spec (ETA : α) (num_legs : ℕ) (decision_hours : List α)
    (planner : ℕ → α → Option (List (RHLeg α))) :
    (∀ (st : RHState α) (dp_idx : ℕ) (schedule : List (RHLeg α)),
      st.halted = false → st.nodeIdx < num_legs → ¬ (ETA - st.elapsedT ≤ 0) →
      planner st.nodeIdx st.elapsedT = some schedule →
      ((rhEpochStep ETA num_legs decision_hours planner dp_idx st).committed
          = st.committed
            ++ commitGo (decide (decision_hours.length ≤ dp_idx + 1))
                (decision_hours.getD (dp_idx + 1) 0 - decision_hours.getD dp_idx 0)
                st.nodeIdx schedule 0)
      ∧ ((rhEpochStep ETA num_legs decision_hours planner dp_idx st).nodeIdx
          = st.nodeIdx
            + (commitGo (decide (decision_hours.length ≤ dp_idx + 1))
                (decision_hours.getD (dp_idx + 1) 0 - decision_hours.getD dp_idx 0)
                st.nodeIdx schedule 0).length)
      ∧ (decision_hours.length ≤ dp_idx + 1 →
          commitGo (decide (decision_hours.length ≤ dp_idx + 1))
              (decision_hours.getD (dp_idx + 1) 0 - decision_hours.getD dp_idx 0)
              st.nodeIdx schedule 0
            = schedule.map (rhRemap st.nodeIdx))
      ∧ (dp_idx + 1 < decision_hours.length →
          ∃ n, commitGo (decide (decision_hours.length ≤ dp_idx + 1))
              (decision_hours.getD (dp_idx + 1) 0 - decision_hours.getD dp_idx 0)
              st.nodeIdx schedule 0
            = (schedule.take n).map (rhRemap st.nodeIdx)
          ∧ (∀ j < n, rhStartTime schedule j
              < decision_hours.getD (dp_idx + 1) 0 - decision_hours.getD dp_idx 0)
          ∧ (n < schedule.length →
              decision_hours.getD (dp_idx + 1) 0 - decision_hours.getD dp_idx 0
                ≤ rhStartTime schedule n)))
    ∧ (∀ n : ℕ, ∃ tail,
        (rhRun ETA num_legs decision_hours planner (n + 1)).committed
          = (rhRun ETA num_legs decision_hours planner n).committed ++ tail) := by
  constructor
  · intro st dp_idx schedule hhalt hnode heta hplan
    have hstep : rhEpochStep ETA num_legs decision_hours planner dp_idx st
        = { nodeIdx := st.nodeIdx
              + (commitGo (decide (decision_hours.length ≤ dp_idx + 1))
                  (decision_hours.getD (dp_idx + 1) 0 - decision_hours.getD dp_idx 0)
                  st.nodeIdx schedule 0).length,
            elapsedT := st.elapsedT
              + ((commitGo (decide (decision_hours.length ≤ dp_idx + 1))
                  (decision_hours.getD (dp_idx + 1) 0 - decision_hours.getD dp_idx 0)
                  st.nodeIdx schedule 0).map (fun l => l.time_h)).sum,
            elapsedF := st.elapsedF
              + ((commitGo (decide (decision_hours.length ≤ dp_idx + 1))
                  (decision_hours.getD (dp_idx + 1) 0 - decision_hours.getD dp_idx 0)
                  st.nodeIdx schedule 0).map (fun l => l.fuel_kg)).sum,
            committed := st.committed
              ++ commitGo (decide (decision_hours.length ≤ dp_idx + 1))
                  (decision_hours.getD (dp_idx + 1) 0 - decision_hours.getD dp_idx 0)
                  st.nodeIdx schedule 0,
            halted := false } := by
      unfold rhEpochStep
      rw [hhalt]
      simp only [Bool.false_eq_true, if_false]
      rw [if_neg (not_le.mpr hnode), if_neg heta, hplan]
    refine ⟨by rw [hstep], by rw [hstep], ?_, ?_⟩
    · intro hlast
      exact ((commitGo_spec _ _ st.nodeIdx schedule 0).1) (by simpa using hlast)
    · intro hnl
      obtain ⟨n, hcomm, hlt, hge⟩ :=
        ((commitGo_spec (decide (decision_hours.length ≤ dp_idx + 1))
          (decision_hours.getD (dp_idx + 1) 0 - decision_hours.getD dp_idx 0)
          st.nodeIdx schedule 0).2) (by simpa using not_le.mpr hnl)
      refine ⟨n, hcomm, ?_, ?_⟩
      · intro j hj
        have := hlt j hj
        rwa [zero_add] at this
      · intro hlen
        have := hge hlen
        rwa [zero_add] at this
  · intro n
    show ∃ tail, (rhEpochStep ETA num_legs decision_hours planner n
        (rhRun ETA num_legs decision_hours planner n)).committed
      = (rhRun ETA num_legs decision_hours planner n).committed ++ tail
    set st := rhRun ETA num_legs decision_hours planner n with hst
    unfold rhEpochStep
    by_cases h1 : st.halted
    · rw [if_pos h1]
      exact ⟨[], by simp⟩
    · rw [if_neg h1]
      by_cases h2 : num_legs ≤ st.nodeIdx
      · rw [if_pos h2]
        exact ⟨[], by simp⟩
      · rw [if_neg h2]
        by_cases h3 : ETA - st.elapsedT ≤ 0
        · rw [if_pos h3]
          exact ⟨[], by simp⟩
        · rw [if_neg h3]
          cases hp : planner st.nodeIdx st.elapsedT with
          | none => exact ⟨[], by simp⟩
          | some schedule =>
            exact ⟨commitGo (decide (decision_hours.length ≤ n + 1))
                (decision_hours.getD (n + 1) 0 - decision_hours.getD n 0)
                st.nodeIdx schedule 0, rfl⟩

/-- Witness for C4: three decision hours [0, 4, 8], a five-leg route, a
planner returning one leg of 1 h; the first epoch appends that committed
leg. -/
theorem rh_c4_witness :
    (rhEpochStep (10 : ℚ) 5 [0, 4, 8] (fun _ _ => some [⟨0, 0, 0, 10, 10, 10, 1, 2⟩])
        0 rhInit).committed
      = (rhInit (α := ℚ)).committed
        ++ commitGo (decide (([0, 4, 8] : List ℚ).length ≤ 0 + 1))
            (([0, 4, 8] : List ℚ).getD (0 + 1) 0 - ([0, 4, 8] : List ℚ).getD 0 0)
            (rhInit (α := ℚ)).nodeIdx [⟨0, 0, 0, 10, 10, 10, 1, 2⟩] 0 :=
  ((rh_c4_commit_spec (10 : ℚ) 5 [0, 4, 8]
      (fun _ _ => some [⟨0, 0, 0, 10, 10, 10, 1, 2⟩])).1 rhInit 0
      [⟨0, 0, 0, 10, 10, 10, 1, 2⟩] rfl (by norm_num [rhInit])
      (by norm_num [rhInit]) rfl).1

end RHTheorems

end VoyageOpt
